import Mathlib

/-!
Shallow embedding of the toy static linker (`src/main.rs`) for x86-64 ELF
relocatable objects.  Pure Rust functions become Lean functions; Rust panics
and `unwrap` failures become `Option.none`; Rust `HashMap`s become functions
`κ → Option ν` updated pointwise (`HashMap::insert` replaces an existing
binding, which the pointwise update models exactly).  Machine integers are
modelled as `Nat`/`Int`; the only places where width matters (the `u64`
flag mask, the `i32`/`i64` conversions in the relocator, the 32-bit store)
carry explicit bounds.
-/

/-! ### ELF constants (values as in `goblin::elf`) -/

def PAGE_SIZE : Nat := 4096

def SHT_NULL : Nat := 0

def SHT_PROGBITS : Nat := 1

def SHT_SYMTAB : Nat := 2

def SHT_STRTAB : Nat := 3

def SHT_RELA : Nat := 4

def SHT_NOBITS : Nat := 8

def SHF_WRITE : Nat := 1

def SHF_ALLOC : Nat := 2

def SHF_EXECINSTR : Nat := 4

def SHF_MERGE : Nat := 16

def SHF_STRINGS : Nat := 32

def STB_GLOBAL : Nat := 1

def SHN_UNDEF : Nat := 0

def R_X86_64_PC32 : Nat := 2

def R_X86_64_PLT32 : Nat := 4

def ET_EXEC : Nat := 2

def EM_X86_64 : Nat := 62

def PT_LOAD : Nat := 1

def PF_X : Nat := 1

def PF_W : Nat := 2

def PF_R : Nat := 4

/-- `Header::size(ctx)` for a 64-bit little-endian context. -/
def ehdrSize : Nat := 64

/-- `ProgramHeader::size(ctx)` for a 64-bit little-endian context. -/
def phdrSize : Nat := 56

/-- The Rust expression `!u64::from(SHF_MERGE | SHF_STRINGS)`: the u64
complement of the bit pattern 0x30. -/
def maskNotMergeStrings : Nat := 2 ^ 64 - 1 - (SHF_MERGE + SHF_STRINGS)

/-- `goblin::elf::sym::st_bind`: the high nibble of `st_info`. -/
def st_bind (info : Nat) : Nat := info / 16

/-! ### Data model (`src/main.rs` structures and the parsed goblin views) -/

/-- The fields of `goblin::elf::SectionHeader` that the linker reads. -/
structure SectionHeader where
  sh_name : Nat
  sh_type : Nat
  sh_flags : Nat
  sh_offset : Nat
  sh_size : Nat
  sh_info : Nat
  sh_addralign : Nat
  deriving DecidableEq, Repr

/-- The fields of a goblin ELF symbol (`goblin::elf::Sym`) that the linker
reads; named `ElfSym` here. -/
structure ElfSym where
  st_name : Nat
  st_info : Nat
  st_shndx : Nat
  st_value : Nat
  deriving DecidableEq, Repr

/-- One RELA relocation record (`r_addend` is `Option` in goblin; the code
unwraps it). -/
structure Reloc where
  r_offset : Nat
  r_type : Nat
  r_sym : Nat
  r_addend : Option Int
  deriving DecidableEq, Repr

/-- A string table: `get_unsafe` modelled as a partial lookup by offset. -/
def Strtab : Type := Nat → Option String

/-- `InputSection` from `src/main.rs` (the Rust field `section` is the Lean
field `shdr`, since `section` is a Lean keyword). -/
structure InputSection where
  file_idx : Nat
  shdr_idx : Nat
  shdr : SectionHeader
  name : String
  deriving DecidableEq, Repr

/-- `RelocationSection` from `src/main.rs`. -/
structure RelocationSection where
  applies_to_file : Nat
  applies_to_sec : Nat
  relocations : List Reloc
  deriving DecidableEq, Repr

/-- The parsed view of one input object file, as produced by
`goblin::elf::Elf::parse` and consumed by `process_object_file`. -/
structure ObjectFile where
  buf : List Nat
  section_headers : List SectionHeader
  syms : List ElfSym
  strtab : Strtab
  shdr_strtab : Strtab
  shdr_relocs : List (Nat × List Reloc)

/-- Pointwise insertion into a map modelled as a function; this is the
semantics of `HashMap::insert` as observed through `get` (a second insert
under the same key replaces the first binding). -/
def mapInsert {α β : Type} [DecidableEq α] (m : α → Option β) (k : α) (v : β) :
    α → Option β :=
  fun x => if x = k then some v else m x

/-- `SymbolTable` from `src/main.rs`. -/
structure SymbolTable where
  by_file : Nat → Option (List ElfSym × Strtab)
  globals : String → Option (Nat × Nat)

def SymbolTable.new : SymbolTable :=
  { by_file := fun _ => none, globals := fun _ => none }

/-- The symbol-walking loop inside `SymbolTable::insert`: for every symbol
with binding `STB_GLOBAL` and `st_shndx != SHN_UNDEF`, look its name up in
the string table (`unwrap`: `none` on failure) and insert it into
`globals`.  `sym_idx` is the enumeration index of the head of `syms`. -/
def insertGlobalsLoop (g : String → Option (Nat × Nat)) (file_idx : Nat)
    (syms : List ElfSym) (strtab : Strtab) (sym_idx : Nat) :
    Option (String → Option (Nat × Nat)) :=
  match syms with
  | [] => some g
  | sym :: rest =>
    if st_bind sym.st_info = STB_GLOBAL ∧ sym.st_shndx ≠ SHN_UNDEF then
      match strtab sym.st_name with
      | none => none
      | some name =>
        insertGlobalsLoop (mapInsert g name (file_idx, sym_idx)) file_idx rest
          strtab (sym_idx + 1)
    else
      insertGlobalsLoop g file_idx rest strtab (sym_idx + 1)

/-- `SymbolTable::insert` from `src/main.rs`. -/
def SymbolTable.insert (st : SymbolTable) (file_idx : Nat) (syms : List ElfSym)
    (strtab : Strtab) : Option SymbolTable :=
  match insertGlobalsLoop st.globals file_idx syms strtab 0 with
  | none => none
  | some g =>
    some { by_file := mapInsert st.by_file file_idx (syms, strtab), globals := g }

/-- `SymbolTable::get` from `src/main.rs`: both `unwrap`s become `Option`. -/
def SymbolTable.get (st : SymbolTable) (file_idx sym_idx : Nat) : Option ElfSym :=
  match st.by_file file_idx with
  | none => none
  | some (syms, _) => syms.get? sym_idx

/-- The aggregated `Input` from `src/main.rs`. -/
structure Input where
  file_buffers : List (List Nat)
  code_sections : List InputSection
  data_sections : List InputSection
  ro_data_sections : List InputSection
  reloc_sections : List RelocationSection
  symtab : SymbolTable

def Input.new : Input :=
  { file_buffers := [], code_sections := [], data_sections := [],
    ro_data_sections := [], reloc_sections := [], symtab := SymbolTable.new }

/-- Where the section classifier in `process_object_file` sends a section:
one of the three buckets, or nowhere (`ignored`); `none` is the panic. -/
inductive SecClass where
  | code
  | data
  | ro
  | ignored
  deriving DecidableEq, Repr

/-- The classifier `match` inside `process_object_file` (lines 137-167 of
`src/main.rs`), branch for branch. -/
def classifySection (sec : SectionHeader) : Option SecClass :=
  if sec.sh_type = SHT_PROGBITS then
    if sec.sh_flags = SHF_ALLOC ||| SHF_EXECINSTR then some SecClass.code
    else if sec.sh_flags = SHF_ALLOC ||| SHF_WRITE then some SecClass.data
    else if sec.sh_flags &&& maskNotMergeStrings = SHF_ALLOC then some SecClass.ro
    else if sec.sh_flags &&& SHF_ALLOC = SHF_ALLOC then none
    else some SecClass.ignored
  else if sec.sh_type = SHT_NULL ∨ sec.sh_type = SHT_NOBITS ∨
      sec.sh_type = SHT_RELA ∨ sec.sh_type = SHT_SYMTAB ∨
      sec.sh_type = SHT_STRTAB then
    some SecClass.ignored
  else none

/-- The `shdr_relocs` loop of `process_object_file`: indexing
`elf.section_headers[i]` panics when out of range, hence `Option`. -/
def processRelocs (file_idx : Nat) (shdrs : List SectionHeader)
    (rels : List (Nat × List Reloc)) : Option (List RelocationSection) :=
  match rels with
  | [] => some []
  | (i, rs) :: rest =>
    match shdrs.get? i with
    | none => none
    | some sec =>
      match processRelocs file_idx shdrs rest with
      | none => none
      | some rest2 =>
        some ({ applies_to_file := file_idx, applies_to_sec := sec.sh_info,
                relocations := rs } :: rest2)

/-- The section-header walk of `process_object_file`: every section's name is
looked up first (`unwrap`), then the classifier appends to a bucket or
panics. -/
def processSections (file_idx : Nat) (shstr : Strtab)
    (shdrs : List SectionHeader) (idx : Nat) (st : Input) : Option Input :=
  match shdrs with
  | [] => some st
  | sec :: rest =>
    match shstr sec.sh_name with
    | none => none
    | some name =>
      match classifySection sec with
      | none => none
      | some cls =>
        let isec : InputSection :=
          { file_idx := file_idx, shdr_idx := idx, shdr := sec, name := name }
        let st2 : Input :=
          match cls with
          | SecClass.code => { st with code_sections := st.code_sections ++ [isec] }
          | SecClass.data => { st with data_sections := st.data_sections ++ [isec] }
          | SecClass.ro => { st with ro_data_sections := st.ro_data_sections ++ [isec] }
          | SecClass.ignored => st
        processSections file_idx shstr rest (idx + 1) st2

/-- `Input::process_object_file` from `src/main.rs`: push the buffer, record
the relocation sections, install the symbol table, walk the sections. -/
def Input.process_object_file (st : Input) (obj : ObjectFile) : Option Input :=
  let file_idx := st.file_buffers.length
  let st1 : Input := { st with file_buffers := st.file_buffers ++ [obj.buf] }
  match processRelocs file_idx obj.section_headers obj.shdr_relocs with
  | none => none
  | some rels =>
    let st2 : Input := { st1 with reloc_sections := st1.reloc_sections ++ rels }
    match st2.symtab.insert file_idx obj.syms obj.strtab with
    | none => none
    | some symtab2 =>
      processSections file_idx obj.shdr_strtab obj.section_headers 0
        { st2 with symtab := symtab2 }

/-- The ingestion loop of `run`: process the input objects in order. -/
def processAll (st : Input) (objs : List ObjectFile) : Option Input :=
  match objs with
  | [] => some st
  | o :: rest =>
    match st.process_object_file o with
    | none => none
    | some st2 => processAll st2 rest

/-! ### Layout allocator (`align`, `Input::allocate`) -/

/-- `align` from `src/main.rs`: Rust `offset % align` panics when
`align == 0`, hence `Option`. -/
def align (offset a : Nat) : Option Nat :=
  if a = 0 then none
  else
    let r := offset % a
    if r = 0 then some offset else some (offset - r + a)

/-- `OutputSection` from `src/main.rs`. -/
structure OutputSection where
  address : Nat
  input_section : InputSection
  deriving DecidableEq, Repr

/-- The map `(file_idx, shdr_idx) → output offset`. -/
def SectionOffsets : Type := Nat × Nat → Option Nat

/-- One of the three per-bucket loops of `Input::allocate`: align to the
section's `sh_addralign`, record the address, record the `section_offsets`
entry, advance by `sh_size`.  Returns the produced `OutputSection`s, the
final offset and the updated offsets map. -/
def allocBucket (secs : List InputSection) (offset : Nat)
    (offs : SectionOffsets) :
    Option (List OutputSection × Nat × SectionOffsets) :=
  match secs with
  | [] => some ([], offset, offs)
  | sec :: rest =>
    match align offset sec.shdr.sh_addralign with
    | none => none
    | some o =>
      let offs2 := mapInsert offs (sec.file_idx, sec.shdr_idx) o
      match allocBucket rest (o + sec.shdr.sh_size) offs2 with
      | none => none
      | some (outs, fin, offs3) =>
        some ({ address := o, input_section := sec } :: outs, fin, offs3)

/-- `Output` from `src/main.rs`. -/
structure Output where
  file_buffers : List (List Nat)
  code_sections : List OutputSection
  data_sections : List OutputSection
  ro_data_sections : List OutputSection
  section_offsets : SectionOffsets
  reloc_sections : List RelocationSection
  symtab : SymbolTable
  total_size : Nat

/-- `Input::allocate` from `src/main.rs`: reserve the header block, then for
each of the three buckets round the offset up to `PAGE_SIZE` and lay the
bucket out; the final offset is `total_size`. -/
def Input.allocate (inp : Input) : Option Output :=
  let offset0 := ehdrSize + phdrSize * 3
  match align offset0 PAGE_SIZE with
  | none => none
  | some o1 =>
    match allocBucket inp.code_sections o1 (fun _ => none) with
    | none => none
    | some (code, o2, offs2) =>
      match align o2 PAGE_SIZE with
      | none => none
      | some o3 =>
        match allocBucket inp.data_sections o3 offs2 with
        | none => none
        | some (data, o4, offs4) =>
          match align o4 PAGE_SIZE with
          | none => none
          | some o5 =>
            match allocBucket inp.ro_data_sections o5 offs4 with
            | none => none
            | some (ro, o6, offs6) =>
              some { file_buffers := inp.file_buffers,
                     code_sections := code,
                     data_sections := data,
                     ro_data_sections := ro,
                     section_offsets := offs6,
                     reloc_sections := inp.reloc_sections,
                     symtab := inp.symtab,
                     total_size := o6 }

/-! ### Image writer (`segment_info`, `prog_header`, `Output::write`) -/

/-- `SegmentInfo` from `src/main.rs`. -/
structure SegmentInfo where
  size : Nat
  offset : Nat
  deriving DecidableEq, Repr

/-- `prog_header_offset` from `src/main.rs`: byte offset of program-header
slot `i`. -/
def prog_header_offset (i : Nat) : Nat := ehdrSize + i * phdrSize

/-- `segment_info` from `src/main.rs`. -/
def segment_info (sections : List OutputSection) : SegmentInfo :=
  match sections.head?, sections.getLast? with
  | some first, some last =>
    { size := last.address + last.input_section.shdr.sh_size - first.address,
      offset := first.address }
  | _, _ => { size := 0, offset := 0 }

/-- The emitted ELF header fields the linker sets or relies on. -/
structure ElfHeader where
  e_type : Nat
  e_machine : Nat
  e_entry : Nat
  e_phoff : Nat
  e_phnum : Nat
  e_shoff : Nat
  e_shnum : Nat
  e_shstrndx : Nat
  deriving DecidableEq, Repr

/-- Modelled from the spec: the default header produced by the external
parser library's `Header::new(ctx)` (code outside this repository).  Per
the output format of spec §6, every field the linker does not overwrite is
zero (in particular `e_shoff = 0`, `e_shnum = 0`, `e_shstrndx = 0`). -/
def headerNew : ElfHeader :=
  { e_type := 0, e_machine := 0, e_entry := 0, e_phoff := 0, e_phnum := 0,
    e_shoff := 0, e_shnum := 0, e_shstrndx := 0 }

/-- The emitted program-header fields. -/
structure ProgHeader where
  p_type : Nat
  p_flags : Nat
  p_offset : Nat
  p_vaddr : Nat
  p_paddr : Nat
  p_filesz : Nat
  p_memsz : Nat
  p_align : Nat
  deriving DecidableEq, Repr

/-- `prog_header` from `src/main.rs`. -/
def prog_header (info : SegmentInfo) : ProgHeader :=
  { p_type := PT_LOAD, p_flags := 0, p_offset := info.offset,
    p_vaddr := info.offset, p_paddr := info.offset, p_filesz := info.size,
    p_memsz := info.size, p_align := PAGE_SIZE }

/-- The entry-point computation at the top of `Output::write`: resolve
`_start` in `globals`, fetch the symbol, look up its section's output
offset, add `st_value`.  Every Rust `unwrap` is an `Option` bind. -/
def Output.entryOf (out : Output) : Option Nat :=
  match out.symtab.globals ("_start") with
  | none => none
  | some (f, i) =>
    match out.symtab.get f i with
    | none => none
    | some sym =>
      match out.section_offsets (f, sym.st_shndx) with
      | none => none
      | some off => some (off + sym.st_value)

/-- The ELF header built in `Output::write`. -/
def Output.elfHeader (out : Output) : Option ElfHeader :=
  match out.entryOf with
  | none => none
  | some entry =>
    some { headerNew with
           e_type := ET_EXEC
           e_machine := EM_X86_64
           e_entry := entry
           e_phoff := ehdrSize
           e_phnum := 3 }

/-- The three program headers built in `Output::write`, in slot order
(code, rw-data, ro-data). -/
def Output.progHeaders (out : Output) : List ProgHeader :=
  [ { prog_header (segment_info out.code_sections) with p_flags := PF_R ||| PF_X },
    { prog_header (segment_info out.data_sections) with p_flags := PF_R ||| PF_W },
    { prog_header (segment_info out.ro_data_sections) with p_flags := PF_R } ]

/-! ### Byte buffer primitives (the image is a function from index to byte) -/

/-- Two's-complement encoding of an `i32` as an unsigned 32-bit value, the
bit pattern that `pwrite_with::<i32>` stores. -/
def toU32 (d : Int) : Nat := (d % (2 ^ 32 : Int)).toNat

/-- `buf.pwrite_with(v as i32, p, LE)`: store the 4 little-endian bytes of
the 32-bit value `v` at `p`. -/
def writeLE32 (buf : Nat → Nat) (p v : Nat) : Nat → Nat :=
  fun i =>
    if i = p then v % 256
    else if i = p + 1 then v / 256 % 256
    else if i = p + 2 then v / 65536 % 256
    else if i = p + 3 then v / 16777216 % 256
    else buf i

/-- Read back a 32-bit little-endian value at `p`. -/
def readLE32 (buf : Nat → Nat) (p : Nat) : Nat :=
  buf p + 256 * buf (p + 1) + 65536 * buf (p + 2) + 16777216 * buf (p + 3)

/-- `i32::try_from` succeeds exactly on this range. -/
def fitsI32 (d : Int) : Prop := -(2 ^ 31) ≤ d ∧ d < 2 ^ 31

instance (d : Int) : Decidable (fitsI32 d) := by
  unfold fitsI32; infer_instance

/-- `usize` to `i64` conversion (`i64::try_from`) succeeds below `2^63`. -/
def fitsI64 (n : Nat) : Prop := n < 2 ^ 63

instance (n : Nat) : Decidable (fitsI64 n) := by
  unfold fitsI64; infer_instance

/-! ### Relocator (`Output::relocate`) -/

/-- One iteration of the inner relocation loop of `Output::relocate`
(lines 331-374 of `src/main.rs`): dispatch on `r_type`, resolve the symbol,
compute the displacement, range-check it and store it at the patch
location.  Every `unwrap` and the unknown-type panic become `none`. -/
def applyReloc (st : Output) (atFile sec_offset : Nat) (r : Reloc)
    (buf : Nat → Nat) : Option (Nat → Nat) :=
  if r.r_type = R_X86_64_PC32 then
    match r.r_addend with
    | none => none
    | some a =>
      match st.symtab.get atFile r.r_sym with
      | none => none
      | some sym =>
        match st.section_offsets (atFile, sym.st_shndx) with
        | none => none
        | some symSecOff =>
          let s := symSecOff + sym.st_value
          let p := sec_offset + r.r_offset
          if fitsI64 s ∧ fitsI64 p then
            let d : Int := (s : Int) + a - (p : Int)
            if fitsI32 d then some (writeLE32 buf p (toU32 d)) else none
          else none
  else if r.r_type = R_X86_64_PLT32 then
    match r.r_addend with
    | none => none
    | some a =>
      match st.symtab.get atFile r.r_sym with
      | none => none
      | some sym =>
        match st.symtab.by_file atFile with
        | none => none
        | some (_, strtab) =>
          match strtab sym.st_name with
          | none => none
          | some name =>
            match st.symtab.globals name with
            | none => none
            | some (f2, i2) =>
              match st.symtab.get f2 i2 with
              | none => none
              | some sym2 =>
                match st.section_offsets (f2, sym2.st_shndx) with
                | none => none
                | some symSecOff =>
                  let l := symSecOff + sym2.st_value
                  let p := sec_offset + r.r_offset
                  if fitsI64 l ∧ fitsI64 p then
                    let d : Int := (l : Int) + a - (p : Int)
                    if fitsI32 d then some (writeLE32 buf p (toU32 d)) else none
                  else none
  else none

/-- The inner loop of `Output::relocate` over one relocation section's
records. -/
def relocRecords (st : Output) (atFile sec_offset : Nat) (rs : List Reloc)
    (buf : Nat → Nat) : Option (Nat → Nat) :=
  match rs with
  | [] => some buf
  | r :: rest =>
    match applyReloc st atFile sec_offset r buf with
    | none => none
    | some buf2 => relocRecords st atFile sec_offset rest buf2

/-- The outer loop of `Output::relocate`: the `section_offsets` index
expression panics when the key is missing, hence `Option`. -/
def relocSections (st : Output) (rsecs : List RelocationSection)
    (buf : Nat → Nat) : Option (Nat → Nat) :=
  match rsecs with
  | [] => some buf
  | rsec :: rest =>
    match st.section_offsets (rsec.applies_to_file, rsec.applies_to_sec) with
    | none => none
    | some sec_offset =>
      match relocRecords st rsec.applies_to_file sec_offset rsec.relocations buf with
      | none => none
      | some buf2 => relocSections st rest buf2

/-- `Output::relocate` from `src/main.rs`. -/
def Output.relocate (st : Output) (buf : Nat → Nat) : Option (Nat → Nat) :=
  relocSections st st.reloc_sections buf

/-- The patch locations `P` of one relocation section, mirroring the inner
loop's address computation. -/
def recordLocs (sec_offset : Nat) (rs : List Reloc) : List Nat :=
  rs.map (fun r => sec_offset + r.r_offset)

/-- All patch locations `P` touched by `Output::relocate`, section by
section. -/
def patchLocs (st : Output) (rsecs : List RelocationSection) :
    Option (List Nat) :=
  match rsecs with
  | [] => some []
  | rsec :: rest =>
    match st.section_offsets (rsec.applies_to_file, rsec.applies_to_sec) with
    | none => none
    | some sec_offset =>
      match patchLocs st rest with
      | none => none
      | some ps => some (recordLocs sec_offset rsec.relocations ++ ps)

/-! ### Section payload copy (`Output::write`, lines 308-322) and pipeline -/

/-- Copy one section's payload: `sh_size` bytes starting at `sh_offset` of
the owning input buffer land at the section's assigned address.  The slice
`file_buf[offset..offset + size]` panics when out of range. -/
def copySec (fileBuf : List Nat) (off size addr : Nat) (buf : Nat → Nat) :
    Option (Nat → Nat) :=
  if off + size ≤ fileBuf.length then
    some (fun i =>
      if addr ≤ i ∧ i < addr + size then fileBuf.getD (off + (i - addr)) 0
      else buf i)
  else none

/-- The section-copy loop of `Output::write` over one bucket. -/
def copyBucket (fileBufs : List (List Nat)) (secs : List OutputSection)
    (buf : Nat → Nat) : Option (Nat → Nat) :=
  match secs with
  | [] => some buf
  | sec :: rest =>
    match fileBufs.get? sec.input_section.file_idx with
    | none => none
    | some fileBuf =>
      match copySec fileBuf sec.input_section.shdr.sh_offset
          sec.input_section.shdr.sh_size sec.address buf with
      | none => none
      | some buf2 => copyBucket fileBufs rest buf2

/-- The payload part of `Output::write`: copy the code, rw-data and ro-data
buckets in order. -/
def Output.writeBuf (out : Output) (buf : Nat → Nat) : Option (Nat → Nat) :=
  match copyBucket out.file_buffers out.code_sections buf with
  | none => none
  | some b1 =>
    match copyBucket out.file_buffers out.data_sections b1 with
    | none => none
    | some b2 => copyBucket out.file_buffers out.ro_data_sections b2

/-- The result of a link: the structured ELF header and program headers
plus the byte image after payload copy and relocation. -/
structure LinkImage where
  header : ElfHeader
  phdrs : List ProgHeader
  image : Nat → Nat
  size : Nat

/-- The in-memory pipeline of `run` (`src/main.rs` lines 392-414): aggregate
every input in order, allocate the layout, zero-fill a buffer of
`total_size` bytes, write, then relocate. -/
def link (objs : List ObjectFile) : Option LinkImage :=
  match processAll Input.new objs with
  | none => none
  | some inp =>
    match inp.allocate with
    | none => none
    | some out =>
      match out.elfHeader with
      | none => none
      | some hdr =>
        match out.writeBuf (fun _ => 0) with
        | none => none
        | some buf1 =>
          match out.relocate buf1 with
          | none => none
          | some buf2 =>
            some { header := hdr, phdrs := out.progHeaders, image := buf2,
                   size := out.total_size }

/-! ### Concrete fixtures used by counterexamples and witnesses -/

/-- A defined global symbol (binding `STB_GLOBAL`, `st_shndx = 1`) whose
name lives at string-table offset 1. -/
def symFoo : ElfSym := { st_name := 1, st_info := 16, st_shndx := 1, st_value := 0 }

/-- A tiny string table holding `"foo"` at offset 1. -/
def strtabFoo : Strtab := fun n => if n = 1 then some ("foo") else none

/-- An object file whose only content is one defined global symbol
`foo`. -/
def objFooA : ObjectFile :=
  { buf := [], section_headers := [], syms := [symFoo], strtab := strtabFoo,
    shdr_strtab := fun _ => some (""), shdr_relocs := [] }

/-- A second object file that also defines the global symbol `foo`. -/
def objFooB : ObjectFile :=
  { buf := [], section_headers := [], syms := [symFoo], strtab := strtabFoo,
    shdr_strtab := fun _ => some (""), shdr_relocs := [] }

/-- A code section header: `PROGBITS`, flags `ALLOC|EXECINSTR`, 8 bytes,
alignment 1. -/
def codeShdr8 : SectionHeader :=
  { sh_name := 0, sh_type := 1, sh_flags := 6, sh_offset := 0, sh_size := 8,
    sh_info := 0, sh_addralign := 1 }

/-- An object with one 8-byte code section and nothing else. -/
def objCode8 : ObjectFile :=
  { buf := [], section_headers := [codeShdr8], syms := [],
    strtab := fun _ => none, shdr_strtab := fun _ => some (".text"),
    shdr_relocs := [] }

/-- The aggregated input for `objCode8`. -/
def inputCode8 : Input := (Input.new.process_object_file objCode8).getD Input.new

/-- The allocated layout for `objCode8`. -/
def outputCode8 : Output :=
  (inputCode8.allocate).getD
    { file_buffers := [], code_sections := [], data_sections := [],
      ro_data_sections := [], section_offsets := fun _ => none,
      reloc_sections := [], symtab := SymbolTable.new, total_size := 0 }

/-- Like `objCode8` but the code section has `sh_addralign = 3`. -/
def objCodeAlign3 : ObjectFile :=
  { buf := [], section_headers := [{ codeShdr8 with sh_addralign := 3 }],
    syms := [], strtab := fun _ => none, shdr_strtab := fun _ => some (".text"),
    shdr_relocs := [] }

/-- The aggregated input for `objCodeAlign3`. -/
def inputAlign3 : Input := (Input.new.process_object_file objCodeAlign3).getD Input.new

/-- The allocated layout for `objCodeAlign3`. -/
def outputAlign3 : Output :=
  (inputAlign3.allocate).getD
    { file_buffers := [], code_sections := [], data_sections := [],
      ro_data_sections := [], section_offsets := fun _ => none,
      reloc_sections := [], symtab := SymbolTable.new, total_size := 0 }

/-- A `_start` symbol at offset 4 of section 1 of its file; its name lives
at string-table offset 1. -/
def symStart : ElfSym := { st_name := 1, st_info := 16, st_shndx := 1, st_value := 4 }

/-- A second symbol in `outFix`'s file 0, named `bar`, which is absent from
the globals map. -/
def symBar : ElfSym := { st_name := 2, st_info := 16, st_shndx := 1, st_value := 0 }

/-- String table holding `_start` at offset 1. -/
def strtabStart : Strtab :=
  fun n => if n = 1 then some ("_start") else if n = 2 then some ("bar") else none

/-- A hand-built `Output` whose symbol table resolves `_start` and one
`PC32` relocation target, with one relocation section.  Used to exercise
the image writer and the relocator on concrete data. -/
def outFix : Output :=
  { file_buffers := [[]],
    code_sections := [],
    data_sections := [],
    ro_data_sections := [],
    section_offsets := fun k => if k = (0, 1) then some 100 else none,
    reloc_sections :=
      [ { applies_to_file := 0, applies_to_sec := 1,
          relocations := [{ r_offset := 0, r_type := 2, r_sym := 0, r_addend := some 0 }] } ],
    symtab :=
      { by_file := fun f => if f = 0 then some ([symStart, symBar], strtabStart) else none,
        globals := fun n => if n = "_start" then some (0, 0) else none },
    total_size := 4096 }

/-- A constant scratch buffer. -/
def buf9 : Nat → Nat := fun _ => 9

/-- The buffer after `outFix`'s single relocation. -/
def buf9r : Nat → Nat := (outFix.relocate buf9).getD (fun _ => 0)


/-- End offset of an output section: `address + sh_size`. -/
def endOffset (s : OutputSection) : Nat :=
  s.address + s.input_section.shdr.sh_size

/-- The displacement formula of spec section 4.F, written from the spec's
table rather than from the patching code: `S + A - P` for `PC32` with `S`
resolved through the symbol's `st_shndx` in the same file, `L + A - P` for
`PLT32` with `L` resolved through the globals map by symbol name. -/
def specDisplacement (st : Output) (atFile sec_offset : Nat) (r : Reloc) :
    Option Int :=
  if r.r_type = R_X86_64_PC32 then
    match r.r_addend, st.symtab.get atFile r.r_sym with
    | some a, some sym =>
      match st.section_offsets (atFile, sym.st_shndx) with
      | some so =>
        some (((so + sym.st_value : Nat) : Int) + a
          - ((sec_offset + r.r_offset : Nat) : Int))
      | none => none
    | _, _ => none
  else if r.r_type = R_X86_64_PLT32 then
    match r.r_addend, st.symtab.get atFile r.r_sym, st.symtab.by_file atFile with
    | some a, some sym, some pr =>
      match pr.2 sym.st_name with
      | some name =>
        match st.symtab.globals name with
        | some (f2, i2) =>
          match st.symtab.get f2 i2 with
          | some sym2 =>
            match st.section_offsets (f2, sym2.st_shndx) with
            | some so =>
              some (((so + sym2.st_value : Nat) : Int) + a
                - ((sec_offset + r.r_offset : Nat) : Int))
            | none => none
          | none => none
        | none => none
      | none => none
    | _, _, _ => none
  else none

/-- A `PC32` relocation record at offset 0 with addend 0 against symbol
index 0. -/
def rPC : Reloc := { r_offset := 0, r_type := 2, r_sym := 0, r_addend := some 0 }

/-- A `PLT32` relocation record against symbol index 1 (`bar`). -/
def rPLT : Reloc := { r_offset := 0, r_type := 4, r_sym := 1, r_addend := some 0 }

/-- The buffer produced by applying `rPC` through `applyReloc` on `outFix`
at section offset 100. -/
def bufPC : Nat → Nat := (applyReloc outFix 0 100 rPC buf9).getD (fun _ => 0)

/-- The patch locations of `outFix`'s relocation sections. -/
def psFix : List Nat := (patchLocs outFix outFix.reloc_sections).getD []

/-! ### Helper lemmas about `align` -/

theorem align_eq_none_iff (o a : Nat) : align o a = none ↔ a = 0 := by
  unfold align
  split
  case isTrue h => simp [h]
  case isFalse h =>
    constructor
    · intro hc
      by_cases hr : o % a = 0 <;> simp [hr] at hc
    · intro hc; exact absurd hc h

theorem align_isSome_iff (o a : Nat) : (align o a).isSome = true ↔ a ≠ 0 := by
  rw [Option.isSome_iff_exists]
  constructor
  · rintro ⟨x, hx⟩ h0
    rw [(align_eq_none_iff o a).mpr h0] at hx
    exact Option.noConfusion hx
  · intro h0
    cases hx : align o a with
    | none => exact absurd ((align_eq_none_iff o a).mp hx) h0
    | some x => exact ⟨x, rfl⟩

theorem align_dvd (o a x : Nat) (h : align o a = some x) : a ∣ x := by
  unfold align at h
  split at h
  · exact Option.noConfusion h
  case isFalse h0 =>
    by_cases hr : o % a = 0
    · simp only [hr, if_pos] at h
      cases h
      exact Nat.dvd_of_mod_eq_zero hr
    · simp only [hr, if_neg, ite_false] at h
      cases h
      have hmod : a * (o / a) + o % a = o := Nat.div_add_mod o a
      have : o - o % a = a * (o / a) := by omega
      rw [this]
      exact ⟨o / a + 1, by ring⟩

theorem align_mod_eq_zero (o a x : Nat) (h : align o a = some x) : x % a = 0 :=
  Nat.mod_eq_zero_of_dvd (align_dvd o a x h)

theorem align_ge (o a x : Nat) (h : align o a = some x) : o ≤ x := by
  unfold align at h
  split at h
  · exact Option.noConfusion h
  case isFalse h0 =>
    by_cases hr : o % a = 0
    · simp only [hr, if_pos] at h; cases h; exact Nat.le_refl o
    · simp only [hr, if_neg, ite_false] at h
      cases h
      have := Nat.mod_lt o (Nat.pos_of_ne_zero h0)
      omega

theorem align_of_mod_eq_zero (o a : Nat) (h0 : a ≠ 0) (h : o % a = 0) :
    align o a = some o := by
  unfold align
  simp [h0, h]

theorem align_idem (o a x : Nat) (h : align o a = some x) : align x a = some x := by
  have h0 : a ≠ 0 := by
    intro hc
    rw [(align_eq_none_iff o a).mpr hc] at h
    exact Option.noConfusion h
  exact align_of_mod_eq_zero x a h0 (align_mod_eq_zero o a x h)

/-! ### Helper lemmas about the 32-bit store -/

theorem toU32_lt (d : Int) : toU32 d < 2 ^ 32 := by
  unfold toU32
  omega

theorem readLE32_writeLE32 (buf : Nat → Nat) (p v : Nat) (hv : v < 2 ^ 32) :
    readLE32 (writeLE32 buf p v) p = v := by
  have h1 : ¬(p + 1 = p) := by omega
  have h2 : ¬(p + 2 = p) := by omega
  have h2b : ¬(p + 2 = p + 1) := by omega
  have h3 : ¬(p + 3 = p) := by omega
  have h3b : ¬(p + 3 = p + 1) := by omega
  have h3c : ¬(p + 3 = p + 2) := by omega
  unfold readLE32 writeLE32
  simp only [if_pos rfl, h1, h2, h2b, h3, h3b, h3c, if_false, if_true, ite_false]
  omega

theorem writeLE32_frame (buf : Nat → Nat) (p v i : Nat)
    (h : i < p ∨ p + 4 ≤ i) : writeLE32 buf p v i = buf i := by
  have h0 : ¬(i = p) := by omega
  have h1 : ¬(i = p + 1) := by omega
  have h2 : ¬(i = p + 2) := by omega
  have h3 : ¬(i = p + 3) := by omega
  unfold writeLE32
  simp only [h0, h1, h2, h3, if_false, ite_false]

/-! ### Helper lemmas about `allocBucket` -/

theorem allocBucket_nil (offset : Nat) (offs : SectionOffsets) :
    allocBucket [] offset offs = some ([], offset, offs) := rfl

theorem allocBucket_cons (sec : InputSection) (rest : List InputSection)
    (offset : Nat) (offs : SectionOffsets) :
    allocBucket (sec :: rest) offset offs =
      match align offset sec.shdr.sh_addralign with
      | none => none
      | some o =>
        match allocBucket rest (o + sec.shdr.sh_size)
            (mapInsert offs (sec.file_idx, sec.shdr_idx) o) with
        | none => none
        | some (outs, fin, offs3) =>
          some ({ address := o, input_section := sec } :: outs, fin, offs3) := rfl

theorem allocBucket_isSome_iff (secs : List InputSection) :
    ∀ offset offs, (allocBucket secs offset offs).isSome = true ↔
      ∀ sec ∈ secs, sec.shdr.sh_addralign ≠ 0 := by
  induction secs with
  | nil =>
    intro offset offs
    simp [allocBucket_nil]
  | cons sec rest ih =>
    intro offset offs
    rw [allocBucket_cons]
    split
    next ha =>
      have h0 : sec.shdr.sh_addralign = 0 := (align_eq_none_iff _ _).mp ha
      simp only [Option.isSome_none, Bool.false_eq_true, false_iff]
      intro hall
      exact hall sec (List.mem_cons_self sec rest) h0
    next o ha =>
      have h0 : sec.shdr.sh_addralign ≠ 0 := by
        intro hc
        rw [(align_eq_none_iff offset sec.shdr.sh_addralign).mpr hc] at ha
        exact Option.noConfusion ha
      split
      next hb =>
        have hrest := ih (o + sec.shdr.sh_size)
          (mapInsert offs (sec.file_idx, sec.shdr_idx) o)
        rw [hb] at hrest
        simp only [Option.isSome_none, Bool.false_eq_true, false_iff] at hrest ⊢
        intro hall
        exact hrest (fun s hs => hall s (List.mem_cons_of_mem sec hs))
      next outs fin offs3 hb =>
        have hrest := ih (o + sec.shdr.sh_size)
          (mapInsert offs (sec.file_idx, sec.shdr_idx) o)
        rw [hb] at hrest
        simp only [Option.isSome_some, true_iff] at hrest
        simp only [Option.isSome_some, true_iff]
        intro s hs
        rcases List.mem_cons.mp hs with h | h
        · rw [h]; exact h0
        · exact hrest s h

theorem allocBucket_addr_mod (secs : List InputSection) :
    ∀ offset offs outs fin offs2,
      allocBucket secs offset offs = some (outs, fin, offs2) →
      ∀ s ∈ outs, s.address % s.input_section.shdr.sh_addralign = 0 := by
  induction secs with
  | nil =>
    intro offset offs outs fin offs2 h s hs
    rw [allocBucket_nil] at h
    cases h
    exact absurd hs (List.not_mem_nil s)
  | cons sec rest ih =>
    intro offset offs outs fin offs2 h s hs
    rw [allocBucket_cons] at h
    split at h
    next => exact Option.noConfusion h
    next o ha =>
      split at h
      next => exact Option.noConfusion h
      next outs2 fin2 offs3 hb =>
        cases h
        rcases List.mem_cons.mp hs with heq | hmem
        · rw [heq]
          exact align_mod_eq_zero offset sec.shdr.sh_addralign o ha
        · exact ih _ _ _ _ _ hb s hmem

theorem allocBucket_head (sec : InputSection) (rest : List InputSection)
    (offset : Nat) (offs : SectionOffsets) (outs : List OutputSection)
    (fin : Nat) (offs2 : SectionOffsets)
    (h : allocBucket (sec :: rest) offset offs = some (outs, fin, offs2)) :
    ∃ a, align offset sec.shdr.sh_addralign = some a ∧
      outs.head? = some { address := a, input_section := sec } := by
  rw [allocBucket_cons] at h
  split at h
  next => exact Option.noConfusion h
  next o ha =>
    split at h
    next => exact Option.noConfusion h
    next outs2 fin2 offs3 hb =>
      cases h
      exact ⟨o, ha, rfl⟩

theorem allocBucket_last_end (secs : List InputSection) :
    ∀ offset offs outs fin offs2,
      allocBucket secs offset offs = some (outs, fin, offs2) →
      (outs = [] ∧ fin = offset) ∨
      (∃ l, outs.getLast? = some l ∧
        fin = l.address + l.input_section.shdr.sh_size) := by
  induction secs with
  | nil =>
    intro offset offs outs fin offs2 h
    rw [allocBucket_nil] at h
    cases h
    exact Or.inl ⟨rfl, rfl⟩
  | cons sec rest ih =>
    intro offset offs outs fin offs2 h
    rw [allocBucket_cons] at h
    split at h
    next => exact Option.noConfusion h
    next o ha =>
      split at h
      next => exact Option.noConfusion h
      next outs2 fin2 offs3 hb =>
        cases h
        rcases ih _ _ _ _ _ hb with ⟨hnil, hfin⟩ | ⟨l, hl, hfin⟩
        · subst hnil
          refine Or.inr ⟨{ address := o, input_section := sec }, rfl, ?_⟩
          simpa using hfin
        · refine Or.inr ⟨l, ?_, hfin⟩
          cases outs2 with
          | nil => exact Option.noConfusion hl
          | cons x xs => simpa [List.getLast?_cons] using hl

/-! ### Helper lemmas about `insertGlobalsLoop` -/

theorem insertGlobalsLoop_preserve (f : Nat) (strtab : Strtab) (name : String)
    (syms : List ElfSym) :
    ∀ g base g', insertGlobalsLoop g f syms strtab base = some g' →
      (∀ k symk, syms.get? k = some symk →
        st_bind symk.st_info = STB_GLOBAL → symk.st_shndx ≠ SHN_UNDEF →
        strtab symk.st_name ≠ some name) →
      g' name = g name := by
  induction syms with
  | nil =>
    intro g base g' h _
    cases h
    rfl
  | cons sym0 rest ih =>
    intro g base g' h hnone
    rw [insertGlobalsLoop] at h
    split at h
    next hcond =>
      cases hlook : strtab sym0.st_name with
      | none => rw [hlook] at h; exact Option.noConfusion h
      | some name0 =>
        rw [hlook] at h
        have hne : name0 ≠ name := by
          intro hc
          exact hnone 0 sym0 rfl hcond.1 hcond.2 (by rw [hlook, hc])
        have := ih (mapInsert g name0 (f, base)) (base + 1) g' h
          (fun k symk hk => hnone (k + 1) symk hk)
        rw [this]
        unfold mapInsert
        simp [Ne.symm hne]
    next hcond =>
      exact ih g (base + 1) g' h (fun k symk hk => hnone (k + 1) symk hk)

theorem insertGlobalsLoop_lookup (f : Nat) (strtab : Strtab) (name : String)
    (syms : List ElfSym) :
    ∀ g base g' j sym, insertGlobalsLoop g f syms strtab base = some g' →
      syms.get? j = some sym →
      st_bind sym.st_info = STB_GLOBAL → sym.st_shndx ≠ SHN_UNDEF →
      strtab sym.st_name = some name →
      (∀ k symk, j < k → syms.get? k = some symk →
        st_bind symk.st_info = STB_GLOBAL → symk.st_shndx ≠ SHN_UNDEF →
        strtab symk.st_name ≠ some name) →
      g' name = some (f, base + j) := by
  induction syms with
  | nil =>
    intro g base g' j sym _ hj
    exact absurd hj (by simp)
  | cons sym0 rest ih =>
    intro g base g' j sym h hj hbind hndx hname hlast
    cases j with
    | zero =>
      have hsym : sym0 = sym := by
        simpa using hj
      subst hsym
      rw [insertGlobalsLoop] at h
      rw [if_pos ⟨hbind, hndx⟩, hname] at h
      have hpres := insertGlobalsLoop_preserve f strtab name rest
        (mapInsert g name (f, base)) (base + 1) g' h
        (fun k symk hk hb hn =>
          hlast (k + 1) symk (Nat.succ_pos k) (by simpa using hk) hb hn)
      rw [hpres]
      unfold mapInsert
      simp
    | succ j2 =>
      have hj2 : rest.get? j2 = some sym := by simpa using hj
      have hlast2 : ∀ k symk, j2 < k → rest.get? k = some symk →
          st_bind symk.st_info = STB_GLOBAL → symk.st_shndx ≠ SHN_UNDEF →
          strtab symk.st_name ≠ some name := by
        intro k symk hlt hk hb hn
        exact hlast (k + 1) symk (by omega) (by simpa using hk) hb hn
      rw [insertGlobalsLoop] at h
      split at h
      next hcond =>
        cases hlook : strtab sym0.st_name with
        | none => rw [hlook] at h; exact Option.noConfusion h
        | some name0 =>
          rw [hlook] at h
          have := ih (mapInsert g name0 (f, base)) (base + 1) g' j2 sym h hj2
            hbind hndx hname hlast2
          rw [show base + (j2 + 1) = base + 1 + j2 from by omega]
          exact this
      next hcond =>
        have := ih g (base + 1) g' j2 sym h hj2 hbind hndx hname hlast2
        rw [show base + (j2 + 1) = base + 1 + j2 from by omega]
        exact this


/-! ### Claim C1: duplicate global definitions -/

/-- Claim C1, counterexample: two inputs each define the global `foo`;
processing both succeeds (no fatal duplicate-definition failure) and the
second definition silently replaces the first in the globals map. -/
theorem C1_counterexample :
    (processAll Input.new [objFooA]).map
      (fun inp => inp.symtab.globals ("foo")) = some (some (0, 0)) ∧
    (processAll Input.new [objFooA, objFooB]).map
      (fun inp => inp.symtab.globals ("foo")) = some (some (1, 0)) := by
  constructor
  · decide
  · decide

/-- Claim C1, amended: when a file whose symbol `j` is a defined global
(binding `GLOBAL`, `st_shndx` not `UNDEF`) named `name` is inserted into the
symbol table, and no later symbol of that file is a defined global of the
same name, then after a successful insertion the globals map binds `name`
to `(file_idx, j)` — regardless of any earlier binding of `name`: the
second definition silently replaces the first (last-writer-wins) and no
duplicate-definition error exists. -/
theorem C1_theorem (st : SymbolTable) (f : Nat) (syms : List ElfSym)
    (strtab : Strtab) (st' : SymbolTable) (j : Nat) (sym : ElfSym)
    (name : String)
    (hins : st.insert f syms strtab = some st')
    (hj : syms.get? j = some sym)
    (hbind : st_bind sym.st_info = STB_GLOBAL)
    (hndx : sym.st_shndx ≠ SHN_UNDEF)
    (hname : strtab sym.st_name = some name)
    (hlast : ∀ k symk, j < k → syms.get? k = some symk →
      st_bind symk.st_info = STB_GLOBAL → symk.st_shndx ≠ SHN_UNDEF →
      strtab symk.st_name ≠ some name) :
    st'.globals name = some (f, j) := by
  unfold SymbolTable.insert at hins
  split at hins
  next => exact Option.noConfusion hins
  next g hg =>
    cases hins
    have := insertGlobalsLoop_lookup f strtab name syms st.globals 0 g j sym
      hg hj hbind hndx hname hlast
    simpa using this

/-- Claim C1, witness: inserting `foo` from file 1 into a table that
already binds `foo` to file 0 succeeds and rebinds it to `(1, 0)`. -/
theorem C1_witness :
    ((SymbolTable.new.insert 0 [symFoo] strtabFoo).getD SymbolTable.new |>
      fun stA => ((stA.insert 1 [symFoo] strtabFoo).getD SymbolTable.new).globals ("foo"))
      = some (1, 0) := by
  exact C1_theorem
    ((SymbolTable.new.insert 0 [symFoo] strtabFoo).getD SymbolTable.new) 1
    [symFoo] strtabFoo _ 0 symFoo ("foo") (by rfl) (by rfl) (by decide)
    (by decide) (by rfl)
    (by
      intro k symk hlt hget hb hn
      cases k with
      | zero => omega
      | succ m => simp at hget)

/-! ### Claim C5: the section classifier -/

/-- Claim C5: a `PROGBITS` section with flags exactly `ALLOC|EXECINSTR`
is classified code, exactly `ALLOC|WRITE` rw-data, `ALLOC` after masking
out `MERGE|STRINGS` ro-data, any other `ALLOC` combination is fatal;
`NULL`, `NOBITS`, `RELA`, `SYMTAB`, `STRTAB` are ignored; any other type is
fatal. -/
theorem C5_theorem (sec : SectionHeader) :
    (sec.sh_type = SHT_PROGBITS →
      ((sec.sh_flags = SHF_ALLOC ||| SHF_EXECINSTR →
          classifySection sec = some SecClass.code) ∧
       (sec.sh_flags = SHF_ALLOC ||| SHF_WRITE →
          classifySection sec = some SecClass.data) ∧
       (sec.sh_flags &&& maskNotMergeStrings = SHF_ALLOC →
          classifySection sec = some SecClass.ro) ∧
       (sec.sh_flags &&& SHF_ALLOC = SHF_ALLOC →
          sec.sh_flags ≠ SHF_ALLOC ||| SHF_EXECINSTR →
          sec.sh_flags ≠ SHF_ALLOC ||| SHF_WRITE →
          sec.sh_flags &&& maskNotMergeStrings ≠ SHF_ALLOC →
          classifySection sec = none))) ∧
    ((sec.sh_type = SHT_NULL ∨ sec.sh_type = SHT_NOBITS ∨
      sec.sh_type = SHT_RELA ∨ sec.sh_type = SHT_SYMTAB ∨
      sec.sh_type = SHT_STRTAB) →
      classifySection sec = some SecClass.ignored) ∧
    ((sec.sh_type ≠ SHT_PROGBITS ∧ sec.sh_type ≠ SHT_NULL ∧
      sec.sh_type ≠ SHT_NOBITS ∧ sec.sh_type ≠ SHT_RELA ∧
      sec.sh_type ≠ SHT_SYMTAB ∧ sec.sh_type ≠ SHT_STRTAB) →
      classifySection sec = none) := by
  refine ⟨?_, ?_, ?_⟩
  · intro hty
    refine ⟨?_, ?_, ?_, ?_⟩
    · intro hf
      simp [classifySection, hty, hf]
    · intro hf
      have h1 : sec.sh_flags ≠ SHF_ALLOC ||| SHF_EXECINSTR := by
        rw [hf]; decide
      unfold classifySection
      rw [if_pos hty,
        if_neg (show ¬(sec.sh_flags = SHF_ALLOC ||| SHF_EXECINSTR) from by
          rw [hf]; decide),
        if_pos hf]
    · intro hf
      have h1 : sec.sh_flags ≠ SHF_ALLOC ||| SHF_EXECINSTR := by
        intro hc
        rw [hc] at hf
        exact absurd hf (by decide)
      have h2 : sec.sh_flags ≠ SHF_ALLOC ||| SHF_WRITE := by
        intro hc
        rw [hc] at hf
        exact absurd hf (by decide)
      simp [classifySection, hty, hf, h1, h2]
    · intro hal h1 h2 h3
      simp [classifySection, hty, hal, h1, h2, h3]
  · intro h5
    rcases h5 with h | h | h | h | h <;>
      simp [classifySection, h, SHT_NULL, SHT_NOBITS, SHT_RELA, SHT_SYMTAB,
        SHT_STRTAB, SHT_PROGBITS]
  · rintro ⟨h1, h2, h3, h4, h5, h6⟩
    simp [classifySection, h1, h2, h3, h4, h5, h6]

/-- Claim C5, witness: a concrete `PROGBITS` section with flags
`ALLOC|EXECINSTR` is classified as code. -/
theorem C5_witness : classifySection codeShdr8 = some SecClass.code :=
  ((C5_theorem codeShdr8).1 (by decide)).1 (by decide)

/-! ### Claim C8: determinism -/

/-- Claim C8: the pipeline is deterministic — for one fixed input sequence,
two runs of aggregation, layout, image write and relocation produce the
same image. -/
theorem C8_theorem (objs : List ObjectFile) (r1 r2 : Option LinkImage)
    (h1 : link objs = r1) (h2 : link objs = r2) : r1 = r2 := by
  rw [← h1, ← h2]

/-- Claim C8, witness: two runs on the same concrete input agree. -/
theorem C8_witness : link [objFooA] = link [objFooA] :=
  C8_theorem [objFooA] (link [objFooA]) (link [objFooA]) rfl rfl

/-! ### Claim C9: zero `sh_addralign` makes `allocate` panic -/

/-- Claim C9: `allocate` returns an `Output` exactly when every section in
the three buckets has nonzero `sh_addralign`; a zero alignment reaches
`offset % 0` inside `align` and the allocation panics. -/
theorem C9_theorem (inp : Input) :
    (∃ out, inp.allocate = some out) ↔
    (∀ sec, (sec ∈ inp.code_sections ∨ sec ∈ inp.data_sections ∨
      sec ∈ inp.ro_data_sections) → sec.shdr.sh_addralign ≠ 0) := by
  constructor
  · rintro ⟨out, hout⟩ sec hsec
    unfold Input.allocate at hout
    simp only [] at hout
    split at hout
    next => exact Option.noConfusion hout
    next o1 h1 =>
      split at hout
      next => exact Option.noConfusion hout
      next code o2 offs2 hb1 =>
        split at hout
        next => exact Option.noConfusion hout
        next o3 h3 =>
          split at hout
          next => exact Option.noConfusion hout
          next data o4 offs4 hb2 =>
            split at hout
            next => exact Option.noConfusion hout
            next o5 h5 =>
              split at hout
              next => exact Option.noConfusion hout
              next ro o6 offs6 hb3 =>
                rcases hsec with h | h | h
                · exact (allocBucket_isSome_iff inp.code_sections o1
                    (fun _ => none)).mp (by rw [hb1]; rfl) sec h
                · exact (allocBucket_isSome_iff inp.data_sections o3
                    offs2).mp (by rw [hb2]; rfl) sec h
                · exact (allocBucket_isSome_iff inp.ro_data_sections o5
                    offs4).mp (by rw [hb3]; rfl) sec h
  · intro hall
    have h1 : align (ehdrSize + phdrSize * 3) PAGE_SIZE = some 4096 := by decide
    obtain ⟨t1, hb1⟩ := Option.isSome_iff_exists.mp
      ((allocBucket_isSome_iff inp.code_sections 4096 (fun _ => none)).mpr
        (fun s hs => hall s (Or.inl hs)))
    obtain ⟨code, o2, offs2⟩ := t1
    obtain ⟨o3, h3⟩ := Option.isSome_iff_exists.mp
      ((align_isSome_iff o2 PAGE_SIZE).mpr (by decide))
    obtain ⟨t2, hb2⟩ := Option.isSome_iff_exists.mp
      ((allocBucket_isSome_iff inp.data_sections o3 offs2).mpr
        (fun s hs => hall s (Or.inr (Or.inl hs))))
    obtain ⟨data, o4, offs4⟩ := t2
    obtain ⟨o5, h5⟩ := Option.isSome_iff_exists.mp
      ((align_isSome_iff o4 PAGE_SIZE).mpr (by decide))
    obtain ⟨t3, hb3⟩ := Option.isSome_iff_exists.mp
      ((allocBucket_isSome_iff inp.ro_data_sections o5 offs4).mpr
        (fun s hs => hall s (Or.inr (Or.inr hs))))
    obtain ⟨ro, o6, offs6⟩ := t3
    have hs : (inp.allocate).isSome = true := by
      unfold Input.allocate
      simp only [h1, hb1, h3, hb2, h5, hb3]
      rfl
    exact Option.isSome_iff_exists.mp hs

/-- Claim C9, witness: a concrete input whose only section has alignment 1
allocates successfully. -/
theorem C9_witness : ∃ out, inputCode8.allocate = some out := by
  refine (C9_theorem inputCode8).mpr ?_
  intro s hs
  have hc : inputCode8.code_sections =
      [{ file_idx := 0, shdr_idx := 0, shdr := codeShdr8, name := (".text") }] := by
    decide
  have hd : inputCode8.data_sections = [] := by decide
  have hr : inputCode8.ro_data_sections = [] := by decide
  rcases hs with h | h | h
  · rw [hc] at h
    rw [List.mem_singleton.mp h]
    decide
  · rw [hd] at h
    exact absurd h (List.not_mem_nil s)
  · rw [hr] at h
    exact absurd h (List.not_mem_nil s)

/-! ### Claim C2: the value of `total_size` -/

/-- Claim C2, counterexample: for an input with a single 8-byte code
section (alignment 1) and empty rw-data and ro-data buckets, `total_size`
is the page-rounded 8192, not the end offset 4104 of the last section of
the last non-empty bucket. -/
theorem C2_counterexample :
    inputCode8.allocate = some outputCode8 ∧
    outputCode8.total_size = 8192 ∧
    outputCode8.code_sections.map endOffset = [4104] ∧
    outputCode8.data_sections = [] ∧
    outputCode8.ro_data_sections = [] ∧
    (8192 : Nat) ≠ 4104 := by
  refine ⟨rfl, by decide, by decide, by decide, by decide, by decide⟩

/-- Claim C2, amended: `total_size` is the end offset of the last ro-data
section when ro-data is non-empty; otherwise the end offset of the last
section of the last non-empty bucket rounded up to the next multiple of
`PAGE_SIZE`; and `PAGE_SIZE` itself (the page-rounded header block) when
all three buckets are empty. -/
theorem C2_theorem (inp : Input) (out : Output) (h : inp.allocate = some out) :
    (out.ro_data_sections ≠ [] →
      out.ro_data_sections.getLast?.map endOffset = some out.total_size) ∧
    (out.ro_data_sections = [] → out.data_sections ≠ [] →
      out.data_sections.getLast?.bind (fun l => align (endOffset l) PAGE_SIZE)
        = some out.total_size) ∧
    (out.ro_data_sections = [] → out.data_sections = [] →
      out.code_sections ≠ [] →
      out.code_sections.getLast?.bind (fun l => align (endOffset l) PAGE_SIZE)
        = some out.total_size) ∧
    (out.ro_data_sections = [] → out.data_sections = [] →
      out.code_sections = [] → out.total_size = PAGE_SIZE) := by
  unfold Input.allocate at h
  simp only [] at h
  split at h
  next => exact Option.noConfusion h
  next o1 h1 =>
    split at h
    next => exact Option.noConfusion h
    next code o2 offs2 hb1 =>
      split at h
      next => exact Option.noConfusion h
      next o3 h3 =>
        split at h
        next => exact Option.noConfusion h
        next data o4 offs4 hb2 =>
          split at h
          next => exact Option.noConfusion h
          next o5 h5 =>
            split at h
            next => exact Option.noConfusion h
            next ro o6 offs6 hb3 =>
              cases h
              dsimp only
              have ho1 : o1 = 4096 := by
                have hv : align (ehdrSize + phdrSize * 3) PAGE_SIZE = some 4096 := by
                  decide
                rw [hv] at h1
                exact (Option.some.inj h1).symm
              refine ⟨?_, ?_, ?_, ?_⟩
              · intro hro
                rcases allocBucket_last_end _ _ _ _ _ _ hb3 with ⟨hnil, _⟩ | ⟨l, hl, hfin⟩
                · exact absurd hnil hro
                · simp [hl, endOffset, hfin]
              · intro hro hdata
                rcases allocBucket_last_end _ _ _ _ _ _ hb3 with ⟨_, hfin3⟩ | ⟨l, hl, _⟩
                · rcases allocBucket_last_end _ _ _ _ _ _ hb2 with ⟨hnil, _⟩ | ⟨l, hl, hfin2⟩
                  · exact absurd hnil hdata
                  · simp only [hl, Option.some_bind]
                    unfold endOffset
                    rw [← hfin2, h5, hfin3]
                · rw [hro] at hl
                  exact Option.noConfusion hl
              · intro hro hdata hcode
                rcases allocBucket_last_end _ _ _ _ _ _ hb3 with ⟨_, hfin3⟩ | ⟨l, hl, _⟩
                · rcases allocBucket_last_end _ _ _ _ _ _ hb2 with ⟨_, hfin2⟩ | ⟨l, hl, _⟩
                  · rcases allocBucket_last_end _ _ _ _ _ _ hb1 with ⟨hnil, _⟩ | ⟨l, hl, hfin1⟩
                    · exact absurd hnil hcode
                    · have hidem : align o3 PAGE_SIZE = some o3 :=
                        align_idem o2 PAGE_SIZE o3 h3
                      have ho5 : o3 = o5 := by
                        rw [hfin2, hidem] at h5
                        exact Option.some.inj h5
                      simp only [hl, Option.some_bind]
                      unfold endOffset
                      rw [← hfin1, h3, hfin3, ho5]
                  · rw [hdata] at hl
                    exact Option.noConfusion hl
                · rw [hro] at hl
                  exact Option.noConfusion hl
              · intro hro hdata hcode
                rcases allocBucket_last_end _ _ _ _ _ _ hb3 with ⟨_, hfin3⟩ | ⟨l, hl, _⟩
                · rcases allocBucket_last_end _ _ _ _ _ _ hb2 with ⟨_, hfin2⟩ | ⟨l, hl, _⟩
                  · rcases allocBucket_last_end _ _ _ _ _ _ hb1 with ⟨_, hfin1⟩ | ⟨l, hl, _⟩
                    · have h3v : o3 = 4096 := by
                        rw [hfin1, ho1] at h3
                        have hv : align (4096 : Nat) PAGE_SIZE = some 4096 := by decide
                        rw [hv] at h3
                        exact (Option.some.inj h3).symm
                      have h5v : o5 = 4096 := by
                        rw [hfin2, h3v] at h5
                        have hv : align (4096 : Nat) PAGE_SIZE = some 4096 := by decide
                        rw [hv] at h5
                        exact (Option.some.inj h5).symm
                      show o6 = PAGE_SIZE
                      rw [hfin3, h5v]
                      rfl
                    · rw [hcode] at hl
                      exact Option.noConfusion hl
                  · rw [hdata] at hl
                    exact Option.noConfusion hl
                · rw [hro] at hl
                  exact Option.noConfusion hl

/-- Claim C2, witness: for the single-code-section input, the last code
section's end offset rounded up to a page is exactly `total_size`. -/
theorem C2_witness :
    outputCode8.code_sections.getLast?.bind
      (fun l => align (endOffset l) PAGE_SIZE) = some outputCode8.total_size :=
  (C2_theorem inputCode8 outputCode8 rfl).2.2.1 (by decide) (by decide)
    (by decide)

/-! ### Claim C4: alignment invariants of the layout -/

theorem allocBucket_head_page (secs : List InputSection) (offset : Nat)
    (offs : SectionOffsets) (outs : List OutputSection) (fin : Nat)
    (offs2 : SectionOffsets)
    (h : allocBucket secs offset offs = some (outs, fin, offs2))
    (hpage : offset % PAGE_SIZE = 0) :
    ∀ s, outs.head? = some s → s.input_section.shdr.sh_addralign ∣ PAGE_SIZE →
      s.address % PAGE_SIZE = 0 := by
  intro s hs hdvd
  cases secs with
  | nil =>
    rw [allocBucket_nil] at h
    cases h
    exact Option.noConfusion hs
  | cons sec rest =>
    obtain ⟨a, ha, hh⟩ := allocBucket_head sec rest offset offs outs fin offs2 h
    rw [hh] at hs
    cases Option.some.inj hs
    have hne : sec.shdr.sh_addralign ≠ 0 := by
      intro h0
      rw [h0] at hdvd
      have : PAGE_SIZE = 0 := Nat.eq_zero_of_zero_dvd hdvd
      exact absurd this (by decide)
    have hdo : sec.shdr.sh_addralign ∣ offset :=
      Nat.dvd_trans hdvd (Nat.dvd_of_mod_eq_zero hpage)
    have := align_of_mod_eq_zero offset sec.shdr.sh_addralign hne
      (Nat.mod_eq_zero_of_dvd hdo)
    rw [this] at ha
    cases Option.some.inj ha
    exact hpage

/-- Claim C4, counterexample: a single code section with `sh_addralign = 3`
gets address 4098, which is not a multiple of the page size, so the first
section of a non-empty bucket need not start on a page boundary. -/
theorem C4_counterexample :
    inputAlign3.allocate = some outputAlign3 ∧
    outputAlign3.code_sections.head?.map OutputSection.address = some 4098 ∧
    ¬(4098 % PAGE_SIZE = 0) := by
  refine ⟨rfl, by decide, by decide⟩

/-- Claim C4, amended: in any allocated layout every output section's
address is a multiple of its `sh_addralign`, and the first section of each
non-empty bucket starts on a page boundary provided its `sh_addralign`
divides the page size (for other alignments, such as 3, this can fail). -/
theorem C4_theorem (inp : Input) (out : Output) (h : inp.allocate = some out) :
    (∀ s, (s ∈ out.code_sections ∨ s ∈ out.data_sections ∨
      s ∈ out.ro_data_sections) →
      s.address % s.input_section.shdr.sh_addralign = 0) ∧
    (∀ s, (out.code_sections.head? = some s ∨ out.data_sections.head? = some s ∨
      out.ro_data_sections.head? = some s) →
      s.input_section.shdr.sh_addralign ∣ PAGE_SIZE →
      s.address % PAGE_SIZE = 0) := by
  unfold Input.allocate at h
  simp only [] at h
  split at h
  next => exact Option.noConfusion h
  next o1 h1 =>
    split at h
    next => exact Option.noConfusion h
    next code o2 offs2 hb1 =>
      split at h
      next => exact Option.noConfusion h
      next o3 h3 =>
        split at h
        next => exact Option.noConfusion h
        next data o4 offs4 hb2 =>
          split at h
          next => exact Option.noConfusion h
          next o5 h5 =>
            split at h
            next => exact Option.noConfusion h
            next ro o6 offs6 hb3 =>
              cases h
              dsimp only
              have ho1 : o1 % PAGE_SIZE = 0 :=
                align_mod_eq_zero _ _ _ h1
              have ho3 : o3 % PAGE_SIZE = 0 :=
                align_mod_eq_zero _ _ _ h3
              have ho5 : o5 % PAGE_SIZE = 0 :=
                align_mod_eq_zero _ _ _ h5
              constructor
              · intro s hs
                rcases hs with hm | hm | hm
                · exact allocBucket_addr_mod _ _ _ _ _ _ hb1 s hm
                · exact allocBucket_addr_mod _ _ _ _ _ _ hb2 s hm
                · exact allocBucket_addr_mod _ _ _ _ _ _ hb3 s hm
              · intro s hs hdvd
                rcases hs with hm | hm | hm
                · exact allocBucket_head_page _ _ _ _ _ _ hb1 ho1 s hm hdvd
                · exact allocBucket_head_page _ _ _ _ _ _ hb2 ho3 s hm hdvd
                · exact allocBucket_head_page _ _ _ _ _ _ hb3 ho5 s hm hdvd

/-- Claim C4, witness: the single code section of the 8-byte example has a
page-aligned address (its alignment 1 divides 4096). -/
theorem C4_witness :
    ({ address := 4096,
       input_section :=
         { file_idx := 0, shdr_idx := 0, shdr := codeShdr8,
           name := (".text") } } : OutputSection).address % PAGE_SIZE = 0 :=
  (C4_theorem inputCode8 outputCode8 rfl).2 _ (Or.inl (by decide)) (by decide)

/-! ### Claim C3: the relocation formulae and the overflow check -/

/-- Claim C3: whenever `applyReloc` succeeds on a `PC32` or `PLT32` record,
the 32-bit little-endian value stored at `P = sec_offset + r_offset` is the
two's-complement encoding of the spec displacement (`S + A - P`
resp. `L + A - P`), which fits in a signed 32-bit integer; and when the
spec displacement exists but does not fit, relocation fails. -/
theorem C3_theorem (st : Output) (atFile sec_offset : Nat) (r : Reloc)
    (buf : Nat → Nat) :
    (∀ buf2, applyReloc st atFile sec_offset r buf = some buf2 →
      ∃ d, specDisplacement st atFile sec_offset r = some d ∧ fitsI32 d ∧
        readLE32 buf2 (sec_offset + r.r_offset) = toU32 d) ∧
    (∀ d, specDisplacement st atFile sec_offset r = some d → ¬ fitsI32 d →
      applyReloc st atFile sec_offset r buf = none) := by
  constructor
  · intro buf2 h
    unfold applyReloc at h
    by_cases ht : r.r_type = R_X86_64_PC32
    · rw [if_pos ht] at h
      split at h
      next => exact Option.noConfusion h
      next a ha =>
        split at h
        next => exact Option.noConfusion h
        next sym hsym =>
          split at h
          next => exact Option.noConfusion h
          next so hso =>
            simp only [] at h
            split at h
            next hf64 =>
              split at h
              next hf32 =>
                cases h
                refine ⟨((so + sym.st_value : Nat) : Int) + a
                  - ((sec_offset + r.r_offset : Nat) : Int), ?_, hf32, ?_⟩
                · simp only [specDisplacement, if_pos ht, ha, hsym, hso]
                · exact readLE32_writeLE32 buf (sec_offset + r.r_offset) _
                    (toU32_lt _)
              next => exact Option.noConfusion h
            next => exact Option.noConfusion h
    · rw [if_neg ht] at h
      by_cases ht2 : r.r_type = R_X86_64_PLT32
      · rw [if_pos ht2] at h
        split at h
        next => exact Option.noConfusion h
        next a ha =>
          split at h
          next => exact Option.noConfusion h
          next sym hsym =>
            split at h
            next => exact Option.noConfusion h
            next syms2 strtab2 hpr =>
              split at h
              next => exact Option.noConfusion h
              next name hname =>
                split at h
                next => exact Option.noConfusion h
                next f2 i2 hglob =>
                  split at h
                  next => exact Option.noConfusion h
                  next sym2 hsym2 =>
                    split at h
                    next => exact Option.noConfusion h
                    next so hso =>
                      simp only [] at h
                      split at h
                      next hf64 =>
                        split at h
                        next hf32 =>
                          cases h
                          refine ⟨((so + sym2.st_value : Nat) : Int) + a
                            - ((sec_offset + r.r_offset : Nat) : Int), ?_, hf32, ?_⟩
                          · simp only [specDisplacement, if_neg ht, if_pos ht2,
                              ha, hsym, hpr, hname, hglob, hsym2, hso]
                          · exact readLE32_writeLE32 buf (sec_offset + r.r_offset) _
                              (toU32_lt _)
                        next => exact Option.noConfusion h
                      next => exact Option.noConfusion h
      · rw [if_neg ht2] at h
        exact Option.noConfusion h
  · intro d hd hnf
    unfold specDisplacement at hd
    unfold applyReloc
    by_cases ht : r.r_type = R_X86_64_PC32
    · rw [if_pos ht] at hd ⊢
      split at hd
      next a sym ha hsym =>
        split at hd
        next so hso =>
          cases hd
          simp only [ha, hsym, hso]
          by_cases hf64 : fitsI64 (so + sym.st_value) ∧
              fitsI64 (sec_offset + r.r_offset)
          · rw [if_pos hf64, if_neg hnf]
          · rw [if_neg hf64]
        next => exact Option.noConfusion hd
      next => exact Option.noConfusion hd
    · rw [if_neg ht] at hd ⊢
      by_cases ht2 : r.r_type = R_X86_64_PLT32
      · rw [if_pos ht2] at hd ⊢
        split at hd
        next a sym pr ha hsym hpr =>
          obtain ⟨syms2, strtab2⟩ := pr
          split at hd
          next name hname =>
            split at hd
            next f2 i2 hglob =>
              split at hd
              next sym2 hsym2 =>
                split at hd
                next so hso =>
                  cases hd
                  have hname2 : strtab2 sym.st_name = some name := hname
                  simp only [ha, hsym, hpr, hname2, hglob, hsym2, hso]
                  by_cases hf64 : fitsI64 (so + sym2.st_value) ∧
                      fitsI64 (sec_offset + r.r_offset)
                  · rw [if_pos hf64, if_neg hnf]
                  · rw [if_neg hf64]
                next => exact Option.noConfusion hd
              next => exact Option.noConfusion hd
            next => exact Option.noConfusion hd
          next => exact Option.noConfusion hd
        next => exact Option.noConfusion hd
      · rw [if_neg ht2] at hd
        exact Option.noConfusion hd

/-- Claim C3, witness: the concrete `PC32` relocation of `outFix` stores the
encoding of displacement 4 at patch location 100. -/
theorem C3_witness : readLE32 bufPC 100 = toU32 4 := by
  obtain ⟨d, hd, hfit, hread⟩ := (C3_theorem outFix 0 100 rPC buf9).1 bufPC rfl
  have hd4 : d = 4 := by
    have hv : specDisplacement outFix 0 100 rPC = some 4 := by decide
    rw [hv] at hd
    exact (Option.some.inj hd).symm
  rw [hd4] at hread
  exact hread

/-! ### Claim C6: the emitted ELF header and program headers -/

/-- Claim C6: the emitted ELF header has `e_type = EXEC`,
`e_machine = EM_X86_64`, `e_phoff = sizeof(Ehdr)`, `e_phnum = 3`,
`e_shoff = 0`, `e_shnum = 0`; the three program headers sit at slots
0, 1, 2 (byte offsets `ehdrSize + i * phdrSize`), are all `PT_LOAD` in the
fixed order code, rw-data, ro-data with flags `R|X`, `R|W`, `R`, satisfy
`p_offset = p_vaddr = p_paddr`, `p_filesz = p_memsz`, `p_align = 4096`,
and have zero size and offset for an empty bucket. -/
theorem C6_theorem (out : Output) (h : ElfHeader) (hh : out.elfHeader = some h) :
    h.e_type = ET_EXEC ∧ h.e_machine = EM_X86_64 ∧ h.e_phoff = ehdrSize ∧
    h.e_phnum = 3 ∧ h.e_shoff = 0 ∧ h.e_shnum = 0 ∧
    out.progHeaders.map ProgHeader.p_type = [PT_LOAD, PT_LOAD, PT_LOAD] ∧
    out.progHeaders.map ProgHeader.p_flags =
      [PF_R ||| PF_X, PF_R ||| PF_W, PF_R] ∧
    (∀ ph ∈ out.progHeaders, ph.p_offset = ph.p_vaddr ∧
      ph.p_vaddr = ph.p_paddr ∧ ph.p_filesz = ph.p_memsz ∧
      ph.p_align = PAGE_SIZE) ∧
    (prog_header_offset 0 = ehdrSize ∧
      prog_header_offset 1 = ehdrSize + 1 * phdrSize ∧
      prog_header_offset 2 = ehdrSize + 2 * phdrSize) ∧
    (out.code_sections = [] →
      (out.progHeaders.get? 0).map (fun ph => (ph.p_offset, ph.p_filesz))
        = some (0, 0)) ∧
    (out.data_sections = [] →
      (out.progHeaders.get? 1).map (fun ph => (ph.p_offset, ph.p_filesz))
        = some (0, 0)) ∧
    (out.ro_data_sections = [] →
      (out.progHeaders.get? 2).map (fun ph => (ph.p_offset, ph.p_filesz))
        = some (0, 0)) := by
  unfold Output.elfHeader at hh
  split at hh
  next => exact Option.noConfusion hh
  next entry hentry =>
    cases hh
    refine ⟨rfl, rfl, rfl, rfl, rfl, rfl, rfl, rfl, ?_, ⟨rfl, rfl, rfl⟩, ?_, ?_, ?_⟩
    · intro ph hph
      unfold Output.progHeaders at hph
      rcases List.mem_cons.mp hph with hp | hph
      · subst hp; exact ⟨rfl, rfl, rfl, rfl⟩
      rcases List.mem_cons.mp hph with hp | hph
      · subst hp; exact ⟨rfl, rfl, rfl, rfl⟩
      rcases List.mem_cons.mp hph with hp | hph
      · subst hp; exact ⟨rfl, rfl, rfl, rfl⟩
      · exact absurd hph (List.not_mem_nil ph)
    · intro hempty
      unfold Output.progHeaders
      rw [hempty]
      rfl
    · intro hempty
      unfold Output.progHeaders
      rw [hempty]
      rfl
    · intro hempty
      unfold Output.progHeaders
      rw [hempty]
      rfl

/-- Claim C6, witness: the concrete `outFix` image has an EXEC x86-64
header with no section-header table. -/
theorem C6_witness :
    ((outFix.elfHeader).getD headerNew).e_type = ET_EXEC ∧
    ((outFix.elfHeader).getD headerNew).e_machine = EM_X86_64 ∧
    ((outFix.elfHeader).getD headerNew).e_shoff = 0 ∧
    ((outFix.elfHeader).getD headerNew).e_shnum = 0 := by
  have hc := C6_theorem outFix ((outFix.elfHeader).getD headerNew) rfl
  exact ⟨hc.1, hc.2.1, hc.2.2.2.2.1, hc.2.2.2.2.2.1⟩

/-! ### Claim C7: `_start` resolution and unresolved `PLT32` targets -/

/-- Claim C7: the writer resolves `_start` through the globals map and
sets the entry to `section_offsets[(file, st_shndx)] + st_value`; a missing
`_start` makes the header emission fail, and a `PLT32` relocation whose
symbol name is absent from the globals map makes relocation fail. -/
theorem C7_theorem (out : Output) :
    (out.symtab.globals ("_start") = none →
      out.entryOf = none ∧ out.elfHeader = none) ∧
    (∀ f i sym off, out.symtab.globals ("_start") = some (f, i) →
      out.symtab.get f i = some sym →
      out.section_offsets (f, sym.st_shndx) = some off →
      out.entryOf = some (off + sym.st_value) ∧
      (out.elfHeader).map ElfHeader.e_entry = some (off + sym.st_value)) ∧
    (∀ atFile so r buf a sym pr name, r.r_type = R_X86_64_PLT32 →
      r.r_addend = some a →
      out.symtab.get atFile r.r_sym = some sym →
      out.symtab.by_file atFile = some pr →
      pr.2 sym.st_name = some name →
      out.symtab.globals name = none →
      applyReloc out atFile so r buf = none) := by
  refine ⟨?_, ?_, ?_⟩
  · intro habs
    have he : out.entryOf = none := by
      unfold Output.entryOf
      simp only [habs]
    refine ⟨he, ?_⟩
    unfold Output.elfHeader
    simp only [he]
  · intro f i sym off hg hsym hoff
    have he : out.entryOf = some (off + sym.st_value) := by
      unfold Output.entryOf
      simp only [hg, hsym, hoff]
    refine ⟨he, ?_⟩
    unfold Output.elfHeader
    simp only [he, Option.map_some]
    rfl
  · intro atFile so r buf a sym pr name ht ha hsym hpr hname hglob
    obtain ⟨syms2, strtab2⟩ := pr
    have hname2 : strtab2 sym.st_name = some name := hname
    have hPCne : ¬(r.r_type = R_X86_64_PC32) := by
      rw [ht]; decide
    unfold applyReloc
    rw [if_neg hPCne, if_pos ht]
    simp only [ha, hsym, hpr, hname2, hglob]

/-- Claim C7, witness: `outFix` resolves `_start` to entry 104, and the
`PLT32` record against the non-global `bar` fails. -/
theorem C7_witness :
    outFix.entryOf = some 104 ∧
    applyReloc outFix 0 100 rPLT buf9 = none := by
  constructor
  · exact ((C7_theorem outFix).2.1 0 0 symStart 100 rfl rfl rfl).1
  · exact (C7_theorem outFix).2.2 0 100 rPLT buf9 0 symBar
      ([symStart, symBar], strtabStart) ("bar") rfl rfl rfl rfl rfl rfl

/-! ### Claim C10: relocation is frame-preserving -/

theorem applyReloc_frame (st : Output) (atFile so : Nat) (r : Reloc)
    (buf buf2 : Nat → Nat)
    (h : applyReloc st atFile so r buf = some buf2) :
    ∀ i, (i < so + r.r_offset ∨ so + r.r_offset + 4 ≤ i) → buf2 i = buf i := by
  intro i hi
  unfold applyReloc at h
  by_cases ht : r.r_type = R_X86_64_PC32
  · rw [if_pos ht] at h
    split at h
    next => exact Option.noConfusion h
    next a ha =>
      split at h
      next => exact Option.noConfusion h
      next sym hsym =>
        split at h
        next => exact Option.noConfusion h
        next so2 hso =>
          simp only [] at h
          split at h
          next =>
            split at h
            next =>
              cases h
              exact writeLE32_frame buf (so + r.r_offset) _ i hi
            next => exact Option.noConfusion h
          next => exact Option.noConfusion h
  · rw [if_neg ht] at h
    by_cases ht2 : r.r_type = R_X86_64_PLT32
    · rw [if_pos ht2] at h
      split at h
      next => exact Option.noConfusion h
      next a ha =>
        split at h
        next => exact Option.noConfusion h
        next sym hsym =>
          split at h
          next => exact Option.noConfusion h
          next syms2 strtab2 hpr =>
            split at h
            next => exact Option.noConfusion h
            next name hname =>
              split at h
              next => exact Option.noConfusion h
              next f2 i2 hglob =>
                split at h
                next => exact Option.noConfusion h
                next sym2 hsym2 =>
                  split at h
                  next => exact Option.noConfusion h
                  next so2 hso =>
                    simp only [] at h
                    split at h
                    next =>
                      split at h
                      next =>
                        cases h
                        exact writeLE32_frame buf (so + r.r_offset) _ i hi
                      next => exact Option.noConfusion h
                    next => exact Option.noConfusion h
    · rw [if_neg ht2] at h
      exact Option.noConfusion h

theorem relocRecords_frame (st : Output) (atFile so : Nat) (rs : List Reloc) :
    ∀ buf buf2, relocRecords st atFile so rs buf = some buf2 →
      ∀ i, (∀ p ∈ recordLocs so rs, i < p ∨ p + 4 ≤ i) → buf2 i = buf i := by
  induction rs with
  | nil =>
    intro buf buf2 h i _
    cases h
    rfl
  | cons r rest ih =>
    intro buf buf2 h i hi
    rw [relocRecords] at h
    split at h
    next => exact Option.noConfusion h
    next bufm hm =>
      have h1 : bufm i = buf i :=
        applyReloc_frame st atFile so r buf bufm hm i
          (hi (so + r.r_offset) (by unfold recordLocs; simp))
      have h2 : buf2 i = bufm i :=
        ih bufm buf2 h i
          (fun p hp => hi p (by unfold recordLocs at hp ⊢; simp at hp ⊢; right; exact hp))
      rw [h2, h1]

theorem relocSections_frame (st : Output) (rsecs : List RelocationSection) :
    ∀ buf buf2 ps, relocSections st rsecs buf = some buf2 →
      patchLocs st rsecs = some ps →
      ∀ i, (∀ p ∈ ps, i < p ∨ p + 4 ≤ i) → buf2 i = buf i := by
  induction rsecs with
  | nil =>
    intro buf buf2 ps h hp i _
    cases h
    rfl
  | cons rsec rest ih =>
    intro buf buf2 ps h hp i hi
    rw [relocSections] at h
    rw [patchLocs] at hp
    split at h
    next => exact Option.noConfusion h
    next so hso =>
      simp only [hso] at hp
      split at h
      next => exact Option.noConfusion h
      next bufm hm =>
        split at hp
        next => exact Option.noConfusion hp
        next ps2 hp2 =>
          cases hp
          have h1 : bufm i = buf i :=
            relocRecords_frame st rsec.applies_to_file so rsec.relocations buf
              bufm hm i (fun p hpm => hi p (List.mem_append.mpr (Or.inl hpm)))
          have h2 : buf2 i = bufm i :=
            ih bufm buf2 ps2 h hp2 i
              (fun p hpm => hi p (List.mem_append.mpr (Or.inr hpm)))
          rw [h2, h1]

/-- Claim C10: a successful `relocate` modifies only the four bytes at each
patch location `P`; every byte outside those windows is unchanged. -/
theorem C10_theorem (out : Output) (buf buf2 : Nat → Nat) (ps : List Nat)
    (h : out.relocate buf = some buf2)
    (hp : patchLocs out out.reloc_sections = some ps) :
    ∀ i, (∀ p ∈ ps, i < p ∨ p + 4 ≤ i) → buf2 i = buf i := by
  unfold Output.relocate at h
  exact relocSections_frame out out.reloc_sections buf buf2 ps h hp

/-- Claim C10, witness: byte 0 of the scratch buffer survives `outFix`'s
relocation (whose only patch window is bytes 100-103). -/
theorem C10_witness : buf9r 0 = buf9 0 :=
  C10_theorem outFix buf9 buf9r psFix rfl rfl 0 (by decide)
